import Mathlib

/-!
# Verification of the Claria market-aggregation backend

A shallow embedding, in Lean 4, of the market-aggregation pipeline of
`src/services/market.service.ts`, `src/services/polymarket.service.ts` and
`src/utils/cache.ts`, together with theorems settling the behavioural
claims made about it.

Modelling conventions, used throughout:

* JavaScript numbers are modelled as rationals (`ℚ`).  Every numeric value
  the claims depend on is compared only against small decimal constants
  (0, 10, 0.02, time offsets), so the difference between binary doubles
  and exact rationals never decides a claim.  `NaN` is modelled by the
  `Option`/default-0 structure of the code itself (`safeFloat`).
* Timestamps (`Date` values, `Date.now()`) are epoch milliseconds as `Int`.
  A field such as `endDate`, a string in upstream JSON that the code
  immediately feeds to `new Date(...)`, is modelled as `Option Int`
  (`none` = field absent or falsy).
* `JSON.parse` is a library call, not repository code; it is abstracted as
  a parameter `dec : String → Option (List String)` (all three JSON-encoded
  fields of an upstream market are documented in the source as string
  arrays).  `none` covers both a parse failure and a non-array result,
  matching the `Array.isArray` guard in `parseJsonArray`.
* A JavaScript object used as a string-keyed map (`Record<string, number>`,
  `Map`) is an insertion-ordered association list `List (String × _)`;
  assignment overwrites in place, fresh keys append at the end, exactly
  like JS property order.
* A promise that may reject is a `PromiseResult`; a function that can only
  be observed through its effects (database writes, cache invalidation)
  additionally returns a trace of the calls it issued.
-/

/-! ## JavaScript value primitives -/

/-- Result of an awaited JS promise: resolved with a value or rejected with
an error message. -/
inductive PromiseResult (α : Type) where
  | resolved (a : α)
  | rejected (msg : String)
deriving DecidableEq

/-- A JS runtime value that may be `undefined`, `null`, a number or a
string: the domain of `safeFloat` in `market.service.ts` (line 79). -/
inductive JsVal where
  | undef
  | null
  | num (q : ℚ)
  | str (s : String)
deriving DecidableEq

/-- Digits of a decimal numeral to a natural number. -/
def digitsToNat (l : List Char) : ℕ :=
  l.foldl (fun a c => a * 10 + (c.toNat - 48)) 0

/-- Exponent part of a JS float literal (after the `e`): an optional sign
followed by digits; no digits parse as exponent 0 (the real `parseFloat`
then stops before the `e`, which yields the same mantissa-only value). -/
def parseExpInt (l : List Char) : ℤ :=
  match l with
  | '-' :: rest =>
      if rest.takeWhile Char.isDigit = [] then 0
      else -(digitsToNat (rest.takeWhile Char.isDigit) : ℤ)
  | '+' :: rest =>
      if rest.takeWhile Char.isDigit = [] then 0
      else (digitsToNat (rest.takeWhile Char.isDigit) : ℤ)
  | _ =>
      if l.takeWhile Char.isDigit = [] then 0
      else (digitsToNat (l.takeWhile Char.isDigit) : ℤ)

/-- The numeric prefix parse of JS `parseFloat`, restricted to ordinary
decimal literals (sign, digits, fraction, exponent); `none` stands for
`NaN`.  Upstream price/volume strings are plain decimal numerals, so the
`Infinity` literal and exotic forms are out of scope. -/
def parseFloatQ (s : String) : Option ℚ :=
  let l := s.data.dropWhile (fun c => c = ' ' ∨ c = '\t' ∨ c = '\n' ∨ c = '\r')
  let signAndRest : ℚ × List Char :=
    match l with
    | '-' :: rest => (-1, rest)
    | '+' :: rest => (1, rest)
    | _ => (1, l)
  let sign := signAndRest.1
  let l1 := signAndRest.2
  let intDigits := l1.takeWhile Char.isDigit
  let l2 := l1.dropWhile Char.isDigit
  let fracAndRest : List Char × List Char :=
    match l2 with
    | '.' :: rest => (rest.takeWhile Char.isDigit, rest.dropWhile Char.isDigit)
    | _ => ([], l2)
  let fracDigits := fracAndRest.1
  let l3 := fracAndRest.2
  if intDigits = [] ∧ fracDigits = [] then none
  else
    let mantissa : ℚ :=
      sign * ((digitsToNat intDigits : ℚ) +
        (digitsToNat fracDigits : ℚ) / (10 : ℚ) ^ fracDigits.length)
    let e : ℤ :=
      match l3 with
      | 'e' :: rest => parseExpInt rest
      | 'E' :: rest => parseExpInt rest
      | _ => 0
    some (mantissa * (10 : ℚ) ^ e)

/-- `safeFloat` of `market.service.ts` lines 79-83: `undefined`/`null` → 0,
a number is returned as is, a string is `parseFloat`ed with `NaN` → 0. -/
def safeFloat (val : JsVal) : ℚ :=
  match val with
  | .undef => 0
  | .null => 0
  | .num q => q
  | .str s => (parseFloatQ s).getD 0

/-- JS `Number.prototype.toFixed(n)` followed by `parseFloat`, as used for
spreads and display prices: round to `n` decimal places. -/
def roundFixed (n : ℕ) (q : ℚ) : ℚ :=
  ((round (q * (10 : ℚ) ^ n) : ℤ) : ℚ) / (10 : ℚ) ^ n

/-- JS `||` on numbers: `0` (the only falsy numeric value appearing here)
falls through to the right operand. -/
def jsOrNum (a b : ℚ) : ℚ := if a = 0 then b else a

/-- JS `||` on strings: the empty string falls through. -/
def jsOrStr (a b : String) : String := if a = "" then b else a

/-- JS truthiness filter on an optional string: absent or empty → `none`. -/
def strOpt (o : Option String) : Option String :=
  match o with
  | some s => if s = "" then none else some s
  | none => none

/-- JS `a || b || null` on optional strings. -/
def firstStr (a b : Option String) : Option String :=
  (strOpt a).orElse (fun _ => strOpt b)

/-- JS `String.prototype.toLowerCase`, modelled characterwise. -/
def jsLower (s : String) : String := String.mk (s.data.map Char.toLower)

/-- Does `l` start with `pat`? (JS `startsWith`, over character lists.) -/
def listStarts (pat l : List Char) : Bool := l.take pat.length = pat

/-- Does `s` contain `pat` as a substring? (JS `String.prototype.includes`.) -/
def strContains (s pat : String) : Bool :=
  s.data.tails.any (listStarts pat.data)

/-- First-occurrence deduplication with an accumulator of already-seen
strings: the order-preserving semantics of `[...new Set(list)]`. -/
def setDedupGo : List String → List String → List String
  | [], _ => []
  | x :: xs, seen =>
      if x ∈ seen then setDedupGo xs seen else x :: setDedupGo xs (x :: seen)

/-- JS `[...new Set(list)]`: keep the first occurrence of every element. -/
def setDedup (l : List String) : List String := setDedupGo l []

/-- Lookup in a string-keyed association list (JS `Map.prototype.get` /
object property read). -/
def assocLookup {α : Type} (l : List (String × α)) (key : String) : Option α :=
  match l with
  | [] => none
  | p :: rest => if p.1 = key then some p.2 else assocLookup rest key

/-- Assignment `obj[key] = v` on a JS object / `Map.prototype.set`:
overwrite in place if the key exists, else append. -/
def recordInsert {α : Type} (m : List (String × α)) (key : String) (v : α) :
    List (String × α) :=
  if m.any (fun p => p.1 = key) then
    m.map (fun p => if p.1 = key then (key, v) else p)
  else m ++ [(key, v)]

/-! ## Cache layer (`src/utils/cache.ts`)

The store is a string-keyed map of entries `{data, expiresAt}`.  The
stored `data` may itself be JS `null` — `JsData.null` — which `get`
cannot distinguish from a miss, since `get` returns `T | null`.
`Date.now()` is passed in explicitly as `now`. -/

/-- A value stored in (or returned from) the cache: JS `null` or a proper
value.  `cache.get` returns this flat domain, conflating a stored `null`
with a miss exactly as the TypeScript `T | null` return type does. -/
inductive JsData (β : Type) where
  | null
  | val (b : β)
deriving DecidableEq

/-- One cache entry (`CacheEntry<T>` of `cache.ts`). -/
structure CacheEntry (β : Type) where
  data : JsData β
  expiresAt : Int
deriving DecidableEq

/-- Delete a key from the store (`store.delete`). -/
def storeDelete {β : Type} (store : List (String × CacheEntry β)) (key : String) :
    List (String × CacheEntry β) :=
  store.filter (fun p => p.1 ≠ key)

/-- `cache.set(key, data, ttl)` (`cache.ts` lines 20-25): store the entry
with `expiresAt = now + ttl*1000` (ttl in seconds). -/
def cacheSet {β : Type} (now : Int) (store : List (String × CacheEntry β))
    (key : String) (data : JsData β) (ttl : Int) : List (String × CacheEntry β) :=
  recordInsert store key ⟨data, now + ttl * 1000⟩

/-- `cache.get(key)` (`cache.ts` lines 31-39): absent → null; expired
(strictly past `expiresAt`) → delete lazily and return null; else return
the stored data.  Returns the value together with the possibly-shrunk
store. -/
def cacheGet {β : Type} (now : Int) (store : List (String × CacheEntry β))
    (key : String) : JsData β × List (String × CacheEntry β) :=
  match assocLookup store key with
  | none => (.null, store)
  | some e => if now > e.expiresAt then (.null, storeDelete store key) else (e.data, store)

/-- `cache.getOrSet(key, fetcher, ttl)` (`cache.ts` lines 68-79).  The
fetcher is modelled by the value `fresh` it would produce; the third
component of the result records whether the fetcher was invoked. -/
def cacheGetOrSet {β : Type} (now : Int) (store : List (String × CacheEntry β))
    (key : String) (fresh : JsData β) (ttl : Int) :
    JsData β × List (String × CacheEntry β) × Bool :=
  match cacheGet now store key with
  | (.val b, st2) => (.val b, st2, false)
  | (.null, st2) => (fresh, cacheSet now st2 key fresh ttl, true)

/-! ## Upstream data model (`src/services/polymarket.service.ts`) -/

/-- A Gamma tag (`GammaTag`).  The code defends against absent fields with
`t.label ?? t.slug ?? ""`, so both are optional here. -/
structure GammaTag where
  label : Option String
  slug : Option String
deriving DecidableEq

/-- An upstream market nested in an event (`GammaEventMarket`).  The three
JSON-encoded list fields stay raw strings; `volume`/`liquidity` are
string-typed upstream and `volume24hr` number-typed (the documented API
inconsistency), all three modelled as arbitrary `JsVal` fed to
`safeFloat`.  `endDate`/`startDate` are the parsed `Date` timestamps in
epoch milliseconds (`none` = absent/falsy). -/
structure GammaEventMarket where
  id : String
  question : String
  conditionId : String
  slug : String
  endDate : Option Int
  startDate : Option Int
  image : Option String
  icon : Option String
  description : Option String
  outcomes : String
  outcomePrices : String
  volume : JsVal
  volume24hr : JsVal
  liquidity : JsVal
  active : Bool
  closed : Bool
  clobTokenIds : String
  tags : Option (List GammaTag)

/-- An upstream event (`GammaEvent`). -/
structure GammaEvent where
  id : String
  slug : String
  title : String
  category : Option String
  image : Option String
  icon : Option String
  active : Bool
  closed : Bool
  archived : Bool
  featured : Bool
  isNew : Bool
  volume : JsVal
  volume24hr : JsVal
  liquidity : JsVal
  tags : Option (List GammaTag)
  markets : List GammaEventMarket

/-- One (instrument id, outcome name) pair of a canonical market. -/
structure MarketToken where
  token_id : String
  outcome : String
deriving DecidableEq

/-- The canonical market record (`AuroraMarket`).  `outcomePrices` is the
insertion-ordered JS object mapping outcome name to price;
`lastSyncedAt` is the clock value at transformation time. -/
structure AuroraMarket where
  id : String
  polymarketId : String
  slug : String
  eventSlug : String
  question : String
  description : Option String
  category : String
  tags : List String
  outcomes : List String
  outcomePrices : List (String × ℚ)
  tokens : List MarketToken
  volume : ℚ
  volume24h : ℚ
  liquidity : ℚ
  spread : Option ℚ
  active : Bool
  closed : Bool
  featured : Bool
  isNew : Bool
  imageUrl : Option String
  icon : Option String
  endDate : Option Int
  startDate : Option Int
  eventId : String
  lastSyncedAt : Int

/-- Tag ids of `POLYMARKET_TAG_IDS` (`polymarket.service.ts` lines
191-199), modelled as the string-keyed lookup that a JS member access on
the object is: an absent key — and the object has keys `Finance` and
`Tech`, not `Economy` and `Technology` — reads as `undefined` (`none`). -/
def POLYMARKET_TAG_IDS : String → Option ℕ := fun key =>
  if key = "Politics" then some 2
  else if key = "Crypto" then some 21
  else if key = "Sports" then some 100639
  else if key = "Finance" then some 120
  else if key = "Tech" then some 1401
  else if key = "Culture" then some 596
  else if key = "Geopolitics" then some 100265
  else none

/-- `CATEGORY_TAG_MAP` (`market.service.ts` lines 44-57).  The dynamic
views map to `undefined`; the static categories read the upstream tag-id
object — note that the source reads `POLYMARKET_TAG_IDS.Economy` and
`POLYMARKET_TAG_IDS.Technology`, keys that object does not have. -/
def CATEGORY_TAG_MAP : String → Option ℕ := fun category =>
  if category = "All" ∨ category = "Trending" ∨ category = "Breaking" ∨
     category = "EndingSoon" ∨ category = "HighestVolume" ∨ category = "New" then none
  else if category = "Politics" then POLYMARKET_TAG_IDS "Politics"
  else if category = "Crypto" then POLYMARKET_TAG_IDS "Crypto"
  else if category = "Economy" then POLYMARKET_TAG_IDS "Economy"
  else if category = "Sports" then POLYMARKET_TAG_IDS "Sports"
  else if category = "Technology" then POLYMARKET_TAG_IDS "Technology"
  else if category = "Culture" then POLYMARKET_TAG_IDS "Culture"
  else none

/-- Tag blacklist of the recurring-market filter (`market.service.ts`
line 59). -/
def BLACKLIST_TAGS : List String := ["Recurring", "Hide From New"]

/-- Minimum time a market must still have before its end to be shown:
1 hour in milliseconds (`market.service.ts` line 60). -/
def MIN_REMAINING_MS : Int := 60 * 60 * 1000

/-! ## Normalizer (`market.service.ts` lines 62-368) -/

/-- `parseJsonArray` (lines 65-74) at its string-typed call sites: a falsy
(empty) string, a parse failure or a non-array JSON value all yield `[]`.
`dec` abstracts `JSON.parse` restricted to string arrays. -/
def parseJsonArray (dec : String → Option (List String)) (raw : String) :
    List String :=
  if raw = "" then []
  else
    match dec raw with
    | some xs => xs
    | none => []

/-- `buildOutcomePrices` (lines 88-99): zip outcome names with prices
index-wise into a JS object; a missing price (`prices[i]` out of range,
`undefined`) goes through `safeFloat` to 0. -/
def buildOutcomePrices (dec : String → Option (List String))
    (outcomesRaw pricesRaw : String) : List (String × ℚ) :=
  let outcomes := parseJsonArray dec outcomesRaw
  let prices := parseJsonArray dec pricesRaw
  outcomes.enum.foldl
    (fun result ip =>
      recordInsert result ip.2
        (safeFloat (match prices.get? ip.1 with
          | some s => JsVal.str s
          | none => JsVal.undef)))
    []

/-- `buildTokens` (lines 104-114): map instrument ids positionally;
`outcomes[i] ?? (i === 0 ? "Yes" : "No")` supplies the outcome name. -/
def buildTokens (dec : String → Option (List String))
    (clobTokenIdsRaw outcomesRaw : String) : List MarketToken :=
  let tokenIds := parseJsonArray dec clobTokenIdsRaw
  let outcomes := parseJsonArray dec outcomesRaw
  tokenIds.enum.map
    (fun it => ⟨it.2, (outcomes.get? it.1).getD (if it.1 = 0 then "Yes" else "No")⟩)

/-- Crypto keywords of `mapTagsToCategory` (lines 123-138). -/
def CRYPTO_KWS : List String :=
  ["crypto", "bitcoin", "ethereum", "defi", "blockchain", "nft", "btc",
   "eth", "solana", "xrp", "doge", "bnb", "altcoin"]

/-- Politics keywords (lines 140-162). -/
def POLITICS_KWS : List String :=
  ["politics", "elections", "government", "trump", "president", "congress",
   "senate", "geopolit", "war", "iran", "russia", "nato", "tariff",
   "sanction", "military", "ceasefire", "election", "vote", "democrat",
   "republican"]

/-- Sports keywords (lines 164-194). -/
def SPORTS_KWS : List String :=
  ["sports", "nba", "nfl", "nhl", "mlb", "soccer", "football", "tennis",
   "ufc", "mma", "golf", "esports", "dota 2", "formula 1", "formula e",
   "f1 ", "premier league", "champions league", "ncaa", "wnba", "serie a",
   "bundesliga", "la liga", "ligue 1", "baseball", "basketball", "cricket",
   "rugby"]

/-- Economy keywords (lines 196-219). -/
def ECONOMY_KWS : List String :=
  ["economy", "economic", "finance", "financial", "stock", "fed rate",
   "interest rate", "inflation", "gdp", "recession", "forex", "bond",
   "treasury", "ipo", "s&p", "nasdaq", "dow jones", "federal reserve",
   "unemployment", "trade war", "tariff"]

/-- Technology keywords (lines 221-240). -/
def TECH_KWS : List String :=
  ["technology", "tech", "ai ", "artificial intelligence", "openai",
   "chatgpt", "apple", "google", "microsoft", "meta ", "tesla", "nvidia",
   "startup", "software", "hardware", "chip", "semiconductor"]

/-- Culture keywords (lines 242-259). -/
def CULTURE_KWS : List String :=
  ["culture", "entertainment", "celebrity", "movie", "music", "award",
   "oscar", "grammy", "tv show", "netflix", "pop culture", "viral", "meme",
   "game show", "reality tv"]

/-- `mapTagsToCategory` (lines 120-262): join all tag labels with the raw
category hint, lowercase, and test keyword sets in the fixed precedence
order Crypto, Politics, Sports, Economy, Technology, Culture; no match →
"Trending". -/
def mapTagsToCategory (tags : List String) (rawCategory : Option String) :
    String :=
  let allText := jsLower (String.intercalate " " (tags ++ [rawCategory.getD ""]))
  if CRYPTO_KWS.any (fun k => strContains allText k) then "Crypto"
  else if POLITICS_KWS.any (fun k => strContains allText k) then "Politics"
  else if SPORTS_KWS.any (fun k => strContains allText k) then "Sports"
  else if ECONOMY_KWS.any (fun k => strContains allText k) then "Economy"
  else if TECH_KWS.any (fun k => strContains allText k) then "Technology"
  else if CULTURE_KWS.any (fun k => strContains allText k) then "Culture"
  else "Trending"

/-- Is `c` a dash or underscore (the `[-_]` character class)? -/
def isDashU (c : Char) : Bool := c = '-' ∨ c = '_'

/-- Is `c` in the `[-_\d]` character class? -/
def isDashUDigit (c : Char) : Bool := isDashU c ∨ c.isDigit

/-- Does the regex `[-_]<mark>[-_\d]` match at the head of `l`? -/
def intervalAtHead (mark : List Char) (l : List Char) : Bool :=
  match l with
  | [] => false
  | c :: rest =>
      isDashU c && decide (rest.take mark.length = mark) &&
      (match rest.drop mark.length with
       | d :: _ => isDashUDigit d
       | [] => false)

/-- Unanchored match of `[-_]<mark>[-_\d]` anywhere in `l`. -/
def intervalMatch (mark : List Char) (l : List Char) : Bool :=
  l.tails.any (intervalAtHead mark)

/-- Continuation of `digitsThen` after at least one digit. -/
def digitsThenGo (k : Char) : List Char → Bool
  | [] => false
  | c :: rest => c = k || (c.isDigit && digitsThenGo k rest)

/-- Does `\d+<k>` match at the head of `l` (one or more digits, then the
character `k`)?  Enumerates every possible digit-run length, which is what
regex backtracking does. -/
def digitsThen (k : Char) : List Char → Bool
  | [] => false
  | c :: rest => c.isDigit && digitsThenGo k rest

/-- Continuation of `digitsThenMHDash` after at least one digit. -/
def digitsThenMHDashGo : List Char → Bool
  | [] => false
  | c :: rest =>
      ((decide (c = 'm') || decide (c = 'h')) &&
        (match rest with | d :: _ => decide (d = '-') | [] => false)) ||
      (c.isDigit && digitsThenMHDashGo rest)

/-- Does `\d+[mh]-` match at the head of `l`? -/
def digitsThenMHDash : List Char → Bool
  | [] => false
  | c :: rest => c.isDigit && digitsThenMHDashGo rest

/-- The regex `updown-\d+m`, unanchored. -/
def updownMatch (l : List Char) : Bool :=
  l.tails.any (fun t => listStarts "updown-".data t ∧ digitsThen 'm' (t.drop 7))

/-- The regex `up-or-down.*\d+[mh]-`, unanchored (slugs contain no
newlines, so `.` is any character). -/
def upOrDownMatch (l : List Char) : Bool :=
  l.tails.any (fun t =>
    listStarts "up-or-down".data t ∧ (t.drop 10).tails.any digitsThenMHDash)

/-- `isRecurringMarket` (lines 268-282): blacklist tag, or any of the six
short-interval slug patterns on the lowercased slug. -/
def isRecurringMarket (market : GammaEventMarket) (tagLabels : List String) :
    Bool :=
  if tagLabels.any (fun tag => BLACKLIST_TAGS.contains tag) then true
  else
    let slug := (jsLower market.slug).data
    intervalMatch "5m".data slug ∨ intervalMatch "15m".data slug ∨
    intervalMatch "1h".data slug ∨ intervalMatch "6h".data slug ∨
    updownMatch slug ∨ upOrDownMatch slug

/-- The first rejection rule of `shouldShowMarket` (lines 296-299): the
market ends strictly in the future but less than `MIN_REMAINING_MS` away. -/
def endDateRuleRejects (market : GammaEventMarket) (now : Int) : Bool :=
  match market.endDate with
  | some d => 0 < d - now ∧ d - now < MIN_REMAINING_MS
  | none => false

/-- The remaining rules of `shouldShowMarket` (lines 301-314), which do not
look at the clock: category-specific zero-activity and spread-question
noise filters. -/
def shouldShowMarketRest (market : GammaEventMarket) (category : String) :
    Bool :=
  let volume := safeFloat market.volume
  let volume24h := safeFloat market.volume24hr
  let liquidity := safeFloat market.liquidity
  if category = "Sports" ∧ volume = 0 ∧ volume24h = 0 ∧ liquidity < 10 then false
  else if category = "Sports" ∧ listStarts "spread:".data (jsLower market.question).data ∧
          liquidity < 10 then false
  else if (category = "Trending" ∨ category = "All") ∧ volume = 0 ∧
          volume24h = 0 ∧ liquidity = 0 then false
  else true

/-- `shouldShowMarket` (lines 287-315): the 1-hour-remaining rule first,
then the clock-free noise rules. -/
def shouldShowMarket (market : GammaEventMarket) (category : String)
    (now : Int) : Bool :=
  if endDateRuleRejects market now then false
  else shouldShowMarketRest market category

/-- `t.label ?? t.slug ?? ""`. -/
def tagText (t : GammaTag) : String :=
  (t.label.orElse (fun _ => t.slug)).getD ""

/-- `transformEventMarket` (lines 320-368): one upstream market plus its
event to one canonical market.  `nowMs` is the ambient clock (`new
Date()`) used for `lastSyncedAt`. -/
def transformEventMarket (dec : String → Option (List String)) (nowMs : Int)
    (market : GammaEventMarket) (event : GammaEvent) : AuroraMarket :=
  let outcomePrices := buildOutcomePrices dec market.outcomes market.outcomePrices
  let tokens := buildTokens dec market.clobTokenIds market.outcomes
  let priceValues := outcomePrices.map Prod.snd
  let spread : Option ℚ :=
    if priceValues.length ≥ 2 then
      some (roundFixed 6 |priceValues.getD 0 0 - priceValues.getD 1 0|)
    else none
  let eventTagLabels := (event.tags.getD []).map tagText
  let marketTagLabels := (market.tags.getD []).map tagText
  let allTagLabels := setDedup (eventTagLabels ++ marketTagLabels)
  { id := jsOrStr market.conditionId market.id
    polymarketId := market.id
    slug := jsOrStr market.slug market.id
    eventSlug := event.slug
    question := jsOrStr market.question "Unknown Market"
    description := strOpt market.description
    category := mapTagsToCategory allTagLabels event.category
    tags := allTagLabels
    outcomes := parseJsonArray dec market.outcomes
    outcomePrices := outcomePrices
    tokens := tokens
    volume := jsOrNum (safeFloat market.volume) (safeFloat event.volume)
    volume24h := jsOrNum (safeFloat market.volume24hr) (safeFloat event.volume24hr)
    liquidity := jsOrNum (safeFloat market.liquidity) (safeFloat event.liquidity)
    spread := spread
    active := market.active
    closed := market.closed
    featured := event.featured
    isNew := event.isNew
    imageUrl := firstStr market.image event.image
    icon := firstStr market.icon event.icon
    endDate := market.endDate
    startDate := market.startDate
    eventId := event.id
    lastSyncedAt := nowMs }

/-! ## Real-time price enricher (`market.service.ts` lines 374-427,
`polymarket.service.ts` lines 354-464)

The streaming session `fetchTokenPricesViaWS` is observed only through the
promise it resolves; `wsResult` stands for that outcome.  A session-level
failure caught by the `try`/`catch` of `enrichWithRealPrices` is the
`rejected` case; a session that produced no snapshot before the timeout is
`resolved []`. -/

/-- One collected order-book snapshot (`TokenPriceSnapshot`). -/
structure TokenPriceSnapshot where
  tokenId : String
  bestBid : ℚ
  bestAsk : ℚ
  lastPrice : ℚ
  midpoint : ℚ
deriving DecidableEq

/-- The instrument ids a batch subscribes to: every token id longer than
10 characters (lines 377-383). -/
def enrichTokenIds (markets : List AuroraMarket) : List String :=
  markets.flatMap (fun m =>
    (m.tokens.filter (fun t => t.token_id ≠ "" ∧ t.token_id.length > 10)).map
      MarketToken.token_id)

/-- Per-market price overwrite (lines 396-417): for every token with a
snapshot, display the midpoint when the instantaneous spread is narrow
(< 0.02) and the last trade price otherwise, overwriting only when the
display price is positive; recompute the market spread if anything was
overwritten. -/
def enrichMarket (priceMap : List (String × TokenPriceSnapshot))
    (m : AuroraMarket) : AuroraMarket :=
  let res :=
    m.tokens.foldl
      (fun (st : List (String × ℚ) × Bool) token =>
        match assocLookup priceMap token.token_id with
        | none => st
        | some snap =>
          let spreadVal := snap.bestAsk - snap.bestBid
          let displayPrice := if spreadVal < 2 / 100 then snap.midpoint else snap.lastPrice
          if 0 < displayPrice then
            (recordInsert st.1 token.outcome (roundFixed 4 displayPrice), true)
          else st)
      (m.outcomePrices, false)
  if res.2 then
    let vals := res.1.map Prod.snd
    { m with
        outcomePrices := res.1
        spread :=
          if vals.length ≥ 2 then some (roundFixed 6 |vals.getD 0 0 - vals.getD 1 0|)
          else none }
  else m

/-- `enrichWithRealPrices` (lines 374-427): no long token ids → return the
input untouched without opening a session; a rejected session (the `catch`
branch) or an empty snapshot map → return the input untouched; otherwise
map the per-market overwrite over the batch. -/
def enrichWithRealPrices
    (wsResult : PromiseResult (List (String × TokenPriceSnapshot)))
    (markets : List AuroraMarket) : List AuroraMarket :=
  if enrichTokenIds markets = [] then markets
  else
    match wsResult with
    | .rejected _ => markets
    | .resolved priceMap =>
        if priceMap = [] then markets
        else markets.map (enrichMarket priceMap)

/-! ## Filter & dedup engine (`market.service.ts` lines 433-480) -/

/-- JS `endDate && new Date(endDate) < now`: a present end date strictly
in the past. -/
def endsBefore (endDate : Option Int) (now : Int) : Bool :=
  match endDate with
  | some d => d < now
  | none => false

/-- The per-market admission test of `processEvents` (lines 446-471),
up to but excluding the dedup step: inactive/closed, recurring,
sports-expired, expired-with-zero-volume and `shouldShowMarket` rejections
produce `none`; an admitted market is transformed. -/
def marketCandidate (dec : String → Option (List String)) (category : String)
    (now : Int) (event : GammaEvent) (market : GammaEventMarket) :
    Option AuroraMarket :=
  if ¬ market.active ∨ market.closed then none
  else
    let eventTagLabels := (event.tags.getD []).map tagText
    let marketTagLabels := (market.tags.getD []).map tagText
    let tagLabels := setDedup (eventTagLabels ++ marketTagLabels)
    if isRecurringMarket market tagLabels then none
    else if category = "Sports" ∧ endsBefore market.endDate now then none
    else if endsBefore market.endDate now ∧ safeFloat market.volume24hr = 0 then none
    else if ¬ shouldShowMarket market category now then none
    else some (transformEventMarket dec now market event)

/-- The admissible markets of one event (lines 442-447): an event with no
markets, or closed, or archived, contributes nothing. -/
def eventCandidates (dec : String → Option (List String)) (category : String)
    (now : Int) (event : GammaEvent) : List AuroraMarket :=
  if event.markets.length = 0 then []
  else if event.closed ∨ event.archived then []
  else event.markets.filterMap (marketCandidate dec category now event)

/-- The full candidate stream of a batch, before deduplication, in
traversal order. -/
def admittedStream (dec : String → Option (List String))
    (events : List GammaEvent) (category : String) (now : Int) :
    List AuroraMarket :=
  events.flatMap (eventCandidates dec category now)

/-- The dedup step of `processEvents` (lines 472-475): push the market and
record its id unless the id was already seen. -/
def dedupStep (st : List AuroraMarket × List String) (m : AuroraMarket) :
    List AuroraMarket × List String :=
  if m.id ∈ st.2 then st else (st.1 ++ [m], m.id :: st.2)

/-- `processEvents` (lines 433-480): traverse events and their markets,
admit candidates, and keep only the first market per canonical id (the
`seen` set may be pre-populated by the caller). -/
def processEvents (dec : String → Option (List String))
    (events : List GammaEvent) (category : String) (now : Int)
    (seen : List String) : List AuroraMarket :=
  (events.foldl
    (fun st event => (eventCandidates dec category now event).foldl dedupStep st)
    ([], seen)).1

/-- Specification-side formulation of first-occurrence-wins deduplication,
with the final seen set: drop a market whose id is in `seen`, otherwise
keep it and extend `seen`. -/
def keepFirstS (seen : List String) :
    List AuroraMarket → List AuroraMarket × List String
  | [] => ([], seen)
  | m :: rest =>
      if m.id ∈ seen then keepFirstS seen rest
      else
        let r := keepFirstS (m.id :: seen) rest
        (m :: r.1, r.2)

/-- Specification-side first-occurrence-wins deduplication by canonical
id. -/
def keepFirstById (seen : List String) (l : List AuroraMarket) :
    List AuroraMarket :=
  (keepFirstS seen l).1

/-! ## Category resolver (`market.service.ts` lines 486-635)

`getMarkets` is a branch ladder mapping the requested view to one upstream
fetch shape.  The fetch plan records the parameters handed to
`fetchGammaEvents` (or the dedicated search / ending-soon fetches). -/

/-- The parameters `getMarkets` passes to `fetchGammaEvents`; `none`
stands for an argument not provided (and hence, per the client`s
omit-defaults policy, not sent). -/
structure FetchParams where
  limit : ℕ
  closed : Option Bool := none
  tag_id : Option ℕ := none
  related_tags : Option Bool := none
  order : Option String := none
  ascending : Option Bool := none
deriving DecidableEq

/-- Which upstream fetch a `getMarkets` request issues. -/
inductive FetchPlan where
  | searchPlan (term : String) (limit : ℕ)
  | endingSoonPlan (hours : ℕ) (limit : ℕ)
  | eventsPlan (p : FetchParams)
deriving DecidableEq

/-- The fetch plan of `getMarkets` (lines 486-635) as a function of the
request: search short-circuits everything; each dynamic view has its own
branch; Sports has its own tag-filtered branch ordered by `startDate`;
the final fallthrough is the generic static-category branch with
`related_tags: true`. -/
def getMarketsPlan (category : Option String) (limit offset : ℕ)
    (searchQ : Option String) : FetchPlan :=
  let cat := category.getD "Trending"
  if searchQ.getD "" ≠ "" then .searchPlan (searchQ.getD "") 50
  else if cat = "Breaking" then .eventsPlan { limit := 100, closed := some false }
  else if cat = "EndingSoon" then .endingSoonPlan 48 100
  else if cat = "HighestVolume" then .eventsPlan { limit := 100, closed := some false }
  else if cat = "New" then
    .eventsPlan { limit := min (limit + offset + 40) 100, closed := some false }
  else if cat = "Sports" then
    .eventsPlan { limit := min (limit + offset + 60) 100, closed := some false,
                  tag_id := CATEGORY_TAG_MAP "Sports", order := some "startDate" }
  else if cat = "Trending" then
    .eventsPlan { limit := min ((limit + offset) * 2) 100, closed := some false }
  else if cat = "All" then
    .eventsPlan { limit := min ((limit + offset) * 2) 100, closed := some false }
  else
    .eventsPlan { limit := min ((limit + offset) * 2) 100, closed := some false,
                  tag_id := CATEGORY_TAG_MAP cat, related_tags := some true }

/-! ## The EndingSoon view (`market.service.ts` lines 530-557)

The two upstream fetches (the dedicated 48-hour fetch and the broad
fallback) are abstracted by the event lists they return; everything the
claim C3 decides on — the client-side window filter, the sort and the
slicing — is repository code embedded below.  The JS `Array.prototype.sort`
(stable since ES2019) is modelled by a stable insertion sort driven by the
source comparator. -/

/-- Stable insertion of `a` into `l`: `a` goes in front of the first
element it compares strictly below, hence after every element it ties
with. -/
def jsInsert {α : Type} (cmp : α → α → Int) (a : α) : List α → List α
  | [] => [a]
  | b :: rest => if cmp a b < 0 then a :: b :: rest else b :: jsInsert cmp a rest

/-- Stable sort by a JS comparator (model of `Array.prototype.sort`). -/
def jsSortStable {α : Type} (cmp : α → α → Int) (l : List α) : List α :=
  l.foldl (fun acc a => jsInsert cmp a acc) []

/-- The EndingSoon comparator (lines 551-554): 0 whenever either end date
is missing, else the difference of the timestamps. -/
def endingSoonCmp (a b : AuroraMarket) : Int :=
  match a.endDate, b.endDate with
  | some x, some y => x - y
  | _, _ => 0

/-- The event list the EndingSoon branch processes (lines 532-541): the
dedicated fetch, extended by the broad fallback when it returned fewer
than 5 events. -/
def endingSoonEventsUsed (api fallback : List GammaEvent) : List GammaEvent :=
  if api.length < 5 then api ++ fallback else api

/-- The 48-hour window filter of the EndingSoon branch (lines 546-550):
keep a market iff it has an end date with `now < endDate ≤ now + 48h`. -/
def endingSoonFiltered (dec : String → Option (List String))
    (api fallback : List GammaEvent) (now : Int) : List AuroraMarket :=
  (processEvents dec (endingSoonEventsUsed api fallback) "EndingSoon" now []).filter
    (fun m =>
      match m.endDate with
      | none => false
      | some d => decide (now < d ∧ d ≤ now + 48 * 60 * 60 * 1000))

/-- The filtered EndingSoon list sorted ascending by end date (lines
551-554), before offset/limit slicing. -/
def endingSoonSorted (dec : String → Option (List String))
    (api fallback : List GammaEvent) (now : Int) : List AuroraMarket :=
  jsSortStable endingSoonCmp (endingSoonFiltered dec api fallback now)

/-- The EndingSoon branch of `getMarkets` (lines 530-557): filter, sort,
slice `[offset, offset+limit)`, enrich. -/
def getMarketsEndingSoon (dec : String → Option (List String))
    (wsResult : PromiseResult (List (String × TokenPriceSnapshot)))
    (api fallback : List GammaEvent) (now : Int) (limit offset : ℕ) :
    List AuroraMarket :=
  enrichWithRealPrices wsResult
    (((endingSoonSorted dec api fallback now).drop offset).take limit)

/-! ## Sync orchestrator (`market.service.ts` lines 723-920)

The awaited external calls are abstracted by a `SyncEnv`; the run returns
the ordered trace of database/cache calls it issued plus its result.
Category fetch failures are swallowed by the inner `try`/`catch`; the
per-market writes run under `Promise.allSettled`, so an individual
rejection only lowers the fulfilled count; the success-path
`syncLog.create` is the one awaited call inside the outer `try` whose
rejection reaches the outer `catch`.  Recording a `SyncLog` row in the
trace models issuing the corresponding `create` call. -/

/-- One row of the `SyncLog` table. -/
structure SyncLogRow where
  type : String
  status : String
  count : ℕ
  duration : Int
  error : Option String
deriving DecidableEq

/-- One external call issued by a sync run, in order. -/
inductive SyncEffect where
  | eventUpsert (eventId : String)
  | marketUpdateMany (polymarketId : String)
  | marketCreate (id : String)
  | cacheInvalidate (keyStart : String)
  | syncLogCreate (row : SyncLogRow)
deriving DecidableEq

/-- Results of the external calls a sync run can make. -/
structure SyncEnv where
  fetch : FetchParams → PromiseResult (List GammaEvent)
  updateManyCount : String → ℕ
  idExists : String → Bool
  slugExists : String → Bool
  createResult : String → PromiseResult Unit
  successLogResult : PromiseResult Unit

/-- `syncCategoryConfig` (lines 736-744): the per-category tag ids, read
from `POLYMARKET_TAG_IDS` by name (`Economy` and `Technology` are not
keys of that object and read as `undefined`). -/
def syncCategoryConfig : List (String × Option ℕ) :=
  [("Trending", none),
   ("Politics", POLYMARKET_TAG_IDS "Politics"),
   ("Crypto", POLYMARKET_TAG_IDS "Crypto"),
   ("Economy", POLYMARKET_TAG_IDS "Economy"),
   ("Sports", POLYMARKET_TAG_IDS "Sports"),
   ("Technology", POLYMARKET_TAG_IDS "Technology"),
   ("Culture", POLYMARKET_TAG_IDS "Culture")]

/-- The fetch parameters of one sync category (lines 748-752): limit 100,
closed false, the tag id only when defined. -/
def syncFetchParams (tagId : Option ℕ) : FetchParams :=
  { limit := 100, closed := some false, tag_id := tagId }

/-- The collection loop for one category (lines 746-774): a rejected fetch
is caught and skipped; events that are closed/archived and markets that
are inactive/closed/recurring are skipped (note: only the event tags are
consulted here, and there is no `shouldShowMarket`); admitted markets are
transformed and deduplicated against the global seen set. -/
def syncCollectStep (dec : String → Option (List String)) (now : Int)
    (env : SyncEnv) (st : List AuroraMarket × List String)
    (cat : String × Option ℕ) : List AuroraMarket × List String :=
  match env.fetch (syncFetchParams cat.2) with
  | .rejected _ => st
  | .resolved events =>
      events.foldl
        (fun st event =>
          if event.closed ∨ event.archived then st
          else
            let tagLabels := (event.tags.getD []).map tagText
            event.markets.foldl
              (fun st m =>
                if ¬ m.active ∨ m.closed then st
                else if isRecurringMarket m tagLabels then st
                else
                  let market := transformEventMarket dec now m event
                  if market.id ∈ st.2 then st
                  else (st.1 ++ [market], market.id :: st.2))
              st)
        st

/-- All markets one sync run accumulates across its category fetches
(lines 733-774). -/
def syncAllMarkets (dec : String → Option (List String)) (env : SyncEnv)
    (now : Int) : List AuroraMarket :=
  (syncCategoryConfig.foldl (syncCollectStep dec now env) ([], [])).1

/-- The parent events to upsert (lines 779-783): first market per
non-empty `eventId`, in order. -/
def keepFirstByEvent (seen : List String) :
    List AuroraMarket → List AuroraMarket
  | [] => []
  | m :: rest =>
      if m.eventId = "" ∨ m.eventId ∈ seen then keepFirstByEvent seen rest
      else m :: keepFirstByEvent (m.eventId :: seen) rest

/-- The write path of one market (lines 809-876): `updateMany` by
upstream id; on zero rows, check id/slug collisions and create; the
effects are the calls issued, the result is the settled outcome. -/
def syncMarketOp (env : SyncEnv) (d : AuroraMarket) :
    List SyncEffect × PromiseResult String :=
  if env.updateManyCount d.polymarketId ≠ 0 then
    ([.marketUpdateMany d.polymarketId], .resolved "updated")
  else if env.idExists d.id ∨ env.slugExists d.slug then
    ([.marketUpdateMany d.polymarketId], .resolved "skipped")
  else
    ([.marketUpdateMany d.polymarketId, .marketCreate d.id],
     match env.createResult d.id with
     | .resolved _ => .resolved "created"
     | .rejected e => .rejected e)

/-- The settled per-market outcomes of a run. -/
def syncOps (dec : String → Option (List String)) (env : SyncEnv)
    (now : Int) : List (List SyncEffect × PromiseResult String) :=
  (syncAllMarkets dec env now).map (syncMarketOp env)

/-- The fulfilled count of the `Promise.allSettled` join (lines 879-881),
which becomes `count` in both the returned value and the sync log. -/
def syncSucceededCount (dec : String → Option (List String)) (env : SyncEnv)
    (now : Int) : ℕ :=
  ((syncOps dec env now).filter
    (fun op => match op.2 with | .resolved _ => true | .rejected _ => false)).length

/-- `syncMarketsFromPolymarket` (lines 723-920).  `startTime` and
`endTime` are the two clock reads; the body collects, upserts events,
writes markets, invalidates the caches and logs the outcome; a rejection
of the success-path log write is caught by the outer `catch`, which logs a
failed `SyncLog` row carrying the error message and the duration and then
re-raises. -/
def syncMarketsFromPolymarket (dec : String → Option (List String))
    (env : SyncEnv) (startTime endTime : Int) :
    List SyncEffect × PromiseResult (ℕ × Int) :=
  let allMarkets := syncAllMarkets dec env startTime
  let eventEffects :=
    (keepFirstByEvent [] allMarkets).map (fun m => SyncEffect.eventUpsert m.eventId)
  let ops := syncOps dec env startTime
  let marketEffects := ops.flatMap Prod.fst
  let succeeded := syncSucceededCount dec env startTime
  let duration := endTime - startTime
  let pre := eventEffects ++ marketEffects ++
    [SyncEffect.cacheInvalidate "markets:", SyncEffect.cacheInvalidate "market:"]
  match env.successLogResult with
  | .resolved _ =>
      (pre ++ [SyncEffect.syncLogCreate ⟨"markets", "success", succeeded, duration, none⟩],
       .resolved (succeeded, duration))
  | .rejected msg =>
      (pre ++ [SyncEffect.syncLogCreate ⟨"markets", "success", succeeded, duration, none⟩,
               SyncEffect.syncLogCreate ⟨"markets", "failed", succeeded, duration, some msg⟩],
       .rejected msg)

/-! ## Concrete fixtures used by witnesses and counterexamples -/

/-- A concrete `JSON.parse` for witnesses: two outcome names under "OUT2",
two price strings under "PRICES2", an empty array under "EMPTY", a
singleton outcome list under "OUT1", two token ids under "TOK2"; anything
else fails to parse. -/
def decFix : String → Option (List String) := fun s =>
  if s = "OUT2" then some ["Yes", "No"]
  else if s = "PRICES2" then some ["1", "0"]
  else if s = "EMPTY" then some []
  else if s = "OUT1" then some ["Maybe"]
  else if s = "TOK2" then some ["t1", "t2"]
  else none

/-- A concrete upstream market used by witnesses: ends 30 minutes after
epoch 0, with plain numeric activity fields. -/
def mkFix (endDate : Option Int) : GammaEventMarket :=
  { id := "m1"
    question := "Will it happen"
    conditionId := "c1"
    slug := "will-it-happen"
    endDate := endDate
    startDate := none
    image := none
    icon := none
    description := none
    outcomes := "OUT2"
    outcomePrices := "PRICES2"
    volume := JsVal.num 5
    volume24hr := JsVal.num 3
    liquidity := JsVal.num 50
    active := true
    closed := false
    clobTokenIds := "TOK2"
    tags := none }

/-- A concrete sync environment whose success-path log write rejects. -/
def envFix : SyncEnv :=
  { fetch := fun _ => .resolved []
    updateManyCount := fun _ => 0
    idExists := fun _ => false
    slugExists := fun _ => false
    createResult := fun _ => .resolved ()
    successLogResult := .rejected "db down" }

/-- A concrete cache store holding one unexpired entry whose stored value
is JS `null`. -/
def storeNullFix : List (String × CacheEntry ℕ) :=
  [("k", ⟨JsData.null, 1000⟩)]

/-- A concrete cache store holding one entry with a proper value. -/
def storeValFix : List (String × CacheEntry ℕ) :=
  [("k", ⟨JsData.val 7, 1000⟩)]

/-! ## Helper lemmas -/

theorem recordInsert_keysEq {α : Type} (m : List (String × α)) (key : String)
    (v : α) :
    (recordInsert m key v).map Prod.fst =
      if key ∈ m.map Prod.fst then m.map Prod.fst else m.map Prod.fst ++ [key] := by
  unfold recordInsert
  by_cases h : m.any (fun p => p.1 = key)
  · have hmem : key ∈ m.map Prod.fst := by
      rcases List.any_eq_true.mp h with ⟨p, hp, he⟩
      exact List.mem_map.mpr ⟨p, hp, of_decide_eq_true he⟩
    rw [if_pos h, if_pos hmem, List.map_map]
    refine List.map_congr_left ?_
    intro p hp
    by_cases hpk : p.1 = key
    · simp [Function.comp, hpk]
    · simp [Function.comp, hpk]
  · have hmem : key ∉ m.map Prod.fst := by
      intro hc
      rcases List.mem_map.mp hc with ⟨p, hp, he⟩
      exact h (List.any_eq_true.mpr ⟨p, hp, decide_eq_true he⟩)
    rw [if_neg h, if_neg hmem, List.map_append]
    rfl

theorem setDedupGo_congr (l : List String) :
    ∀ s t : List String, (∀ x, x ∈ s ↔ x ∈ t) →
      setDedupGo l s = setDedupGo l t := by
  induction l with
  | nil => intro s t _; rfl
  | cons x xs ih =>
    intro s t h
    by_cases hx : x ∈ s
    · rw [setDedupGo, setDedupGo, if_pos hx, if_pos ((h x).mp hx)]
      exact ih s t h
    · have hx2 : x ∉ t := fun c => hx ((h x).mpr c)
      rw [setDedupGo, setDedupGo, if_neg hx, if_neg hx2,
        ih (x :: s) (x :: t) (by intro y; simp [h y])]

theorem setDedupGo_subset (l : List String) :
    ∀ seen, ∀ x ∈ setDedupGo l seen, x ∈ l := by
  induction l with
  | nil => intro seen x hx; simp [setDedupGo] at hx
  | cons a as ih =>
    intro seen x hx
    rw [setDedupGo] at hx
    by_cases ha : a ∈ seen
    · rw [if_pos ha] at hx
      exact List.mem_cons_of_mem a (ih seen x hx)
    · rw [if_neg ha] at hx
      rcases List.mem_cons.mp hx with h1 | h2
      · exact h1 ▸ List.mem_cons_self a as
      · exact List.mem_cons_of_mem a (ih (a :: seen) x h2)

theorem foldRecordKeys (g : ℕ × String → ℚ) (pairs : List (ℕ × String)) :
    ∀ acc : List (String × ℚ),
      ((pairs.foldl (fun r ip => recordInsert r ip.2 (g ip)) acc).map Prod.fst)
        = acc.map Prod.fst ++ setDedupGo (pairs.map Prod.snd) (acc.map Prod.fst) := by
  induction pairs with
  | nil => intro acc; simp [setDedupGo]
  | cons ip rest ih =>
    intro acc
    rw [List.foldl_cons, ih (recordInsert acc ip.2 (g ip)), recordInsert_keysEq]
    by_cases h : ip.2 ∈ acc.map Prod.fst
    · rw [if_pos h, List.map_cons, setDedupGo, if_pos h]
    · rw [if_neg h, List.map_cons, setDedupGo, if_neg h,
        setDedupGo_congr (rest.map Prod.snd) (acc.map Prod.fst ++ [ip.2])
          (ip.2 :: acc.map Prod.fst) (by intro y; simp [or_comm])]
      simp

theorem buildOutcomePrices_keys (dec : String → Option (List String))
    (o p : String) :
    (buildOutcomePrices dec o p).map Prod.fst = setDedup (parseJsonArray dec o) := by
  have h := foldRecordKeys
    (fun ip => safeFloat (match (parseJsonArray dec p).get? ip.1 with
      | some s => JsVal.str s
      | none => JsVal.undef))
    (parseJsonArray dec o).enum []
  simpa [buildOutcomePrices, setDedup, List.enum, List.enumFrom_map_snd] using h

theorem mem_jsInsert {α : Type} (cmp : α → α → Int) (a x : α) :
    ∀ l : List α, x ∈ jsInsert cmp a l ↔ x = a ∨ x ∈ l := by
  intro l
  induction l with
  | nil => simp [jsInsert]
  | cons b rest ih =>
    rw [jsInsert]
    by_cases h : cmp a b < 0
    · rw [if_pos h]
      simp [List.mem_cons, or_comm, or_assoc, or_left_comm]
    · rw [if_neg h]
      simp only [List.mem_cons, ih]
      tauto

theorem mem_jsSortGo {α : Type} (cmp : α → α → Int) (x : α) :
    ∀ (l acc : List α),
      (x ∈ l.foldl (fun acc a => jsInsert cmp a acc) acc ↔ x ∈ acc ∨ x ∈ l) := by
  intro l
  induction l with
  | nil => intro acc; simp
  | cons a rest ih =>
    intro acc
    rw [List.foldl_cons, ih (jsInsert cmp a acc), mem_jsInsert]
    simp only [List.mem_cons]
    tauto

theorem mem_jsSortStable {α : Type} (cmp : α → α → Int) (x : α) (l : List α) :
    x ∈ jsSortStable cmp l ↔ x ∈ l := by
  unfold jsSortStable
  rw [mem_jsSortGo]
  simp

theorem pairwise_jsInsert {α : Type} (f : α → Int) (cmp : α → α → Int) (a : α) :
    ∀ l : List α,
      (∀ b ∈ l, (cmp a b < 0 ↔ f a < f b)) →
      l.Pairwise (fun x y => f x ≤ f y) →
      (jsInsert cmp a l).Pairwise (fun x y => f x ≤ f y) := by
  intro l
  induction l with
  | nil => intro _ _; simp [jsInsert]
  | cons b rest ih =>
    intro hal hp
    rcases List.pairwise_cons.mp hp with ⟨hb, hrest⟩
    rw [jsInsert]
    by_cases h : cmp a b < 0
    · rw [if_pos h]
      have hab : f a < f b := (hal b (List.mem_cons_self b rest)).mp h
      refine List.pairwise_cons.mpr ⟨?_, hp⟩
      intro y hy
      rcases List.mem_cons.mp hy with h1 | h2
      · exact le_of_lt (h1 ▸ hab)
      · exact le_of_lt (lt_of_lt_of_le hab (hb y h2))
    · rw [if_neg h]
      have hba : f b ≤ f a := by
        have : ¬ f a < f b := fun c => h ((hal b (List.mem_cons_self b rest)).mpr c)
        exact le_of_not_lt this
      refine List.pairwise_cons.mpr ⟨?_, ?_⟩
      · intro y hy
        rcases (mem_jsInsert cmp a y rest).mp hy with h1 | h2
        · exact h1 ▸ hba
        · exact hb y h2
      · exact ih (fun c hc => hal c (List.mem_cons_of_mem b hc)) hrest

theorem pairwise_jsSortGo {α : Type} (f : α → Int) (cmp : α → α → Int) :
    ∀ (l acc : List α),
      (∀ a ∈ l, ∀ b, (b ∈ l ∨ b ∈ acc) → (cmp a b < 0 ↔ f a < f b)) →
      acc.Pairwise (fun x y => f x ≤ f y) →
      (l.foldl (fun acc a => jsInsert cmp a acc) acc).Pairwise
        (fun x y => f x ≤ f y) := by
  intro l
  induction l with
  | nil => intro acc _ hacc; simpa using hacc
  | cons a rest ih =>
    intro acc h hacc
    rw [List.foldl_cons]
    refine ih (jsInsert cmp a acc) ?_ ?_
    · intro c hc b hb
      refine h c (List.mem_cons_of_mem a hc) b ?_
      rcases hb with hb | hb
      · exact Or.inl (List.mem_cons_of_mem a hb)
      · rcases (mem_jsInsert cmp a b acc).mp hb with h1 | h2
        · exact Or.inl (h1 ▸ List.mem_cons_self a rest)
        · exact Or.inr h2
    · refine pairwise_jsInsert f cmp a acc ?_ hacc
      intro b hb
      exact h a (List.mem_cons_self a rest) b (Or.inr hb)

theorem pairwise_jsSortStable {α : Type} (f : α → Int) (cmp : α → α → Int)
    (l : List α) (h : ∀ a ∈ l, ∀ b ∈ l, (cmp a b < 0 ↔ f a < f b)) :
    (jsSortStable cmp l).Pairwise (fun x y => f x ≤ f y) := by
  unfold jsSortStable
  refine pairwise_jsSortGo f cmp l [] ?_ List.Pairwise.nil
  intro a ha b hb
  rcases hb with hb | hb
  · exact h a ha b hb
  · simp at hb

theorem enrichMarket_endDate (priceMap : List (String × TokenPriceSnapshot))
    (m : AuroraMarket) : (enrichMarket priceMap m).endDate = m.endDate := by
  simp only [enrichMarket]
  split <;> rfl

theorem mem_enrich_endDate
    (wsResult : PromiseResult (List (String × TokenPriceSnapshot)))
    (l : List AuroraMarket) (m : AuroraMarket)
    (h : m ∈ enrichWithRealPrices wsResult l) :
    ∃ m0 ∈ l, m.endDate = m0.endDate := by
  by_cases h0 : enrichTokenIds l = []
  · unfold enrichWithRealPrices at h
    rw [if_pos h0] at h
    exact ⟨m, h, rfl⟩
  · cases wsResult with
    | rejected e =>
      simp only [enrichWithRealPrices, if_neg h0] at h
      exact ⟨m, h, rfl⟩
    | resolved priceMap =>
      simp only [enrichWithRealPrices, if_neg h0] at h
      by_cases hp : priceMap = []
      · rw [if_pos hp] at h
        exact ⟨m, h, rfl⟩
      · rw [if_neg hp] at h
        rcases List.mem_map.mp h with ⟨m0, hm0, he⟩
        exact ⟨m0, hm0, he ▸ enrichMarket_endDate priceMap m0⟩

theorem keepFirstS_fst (seen : List String) (l : List AuroraMarket) :
    (keepFirstS seen l).1 = keepFirstById seen l := rfl

theorem foldl_dedupStep (l : List AuroraMarket) :
    ∀ (acc : List AuroraMarket) (seen : List String),
      l.foldl dedupStep (acc, seen) =
        (acc ++ (keepFirstS seen l).1, (keepFirstS seen l).2) := by
  induction l with
  | nil => intro acc seen; simp [keepFirstS]
  | cons m rest ih =>
    intro acc seen
    rw [List.foldl_cons]
    by_cases h : m.id ∈ seen
    · have hstep : dedupStep (acc, seen) m = (acc, seen) := by
        unfold dedupStep; rw [if_pos h]
      rw [hstep, ih acc seen, keepFirstS, if_pos h]
    · have hstep : dedupStep (acc, seen) m = (acc ++ [m], m.id :: seen) := by
        unfold dedupStep; rw [if_neg h]
      rw [hstep, ih (acc ++ [m]) (m.id :: seen), keepFirstS, if_neg h]
      simp

theorem foldl_dedupStep_flat (events : List GammaEvent)
    (cand : GammaEvent → List AuroraMarket) :
    ∀ st : List AuroraMarket × List String,
      events.foldl (fun st event => (cand event).foldl dedupStep st) st =
        (events.flatMap cand).foldl dedupStep st := by
  induction events with
  | nil => intro st; simp
  | cons e rest ih =>
    intro st
    rw [List.foldl_cons, ih ((cand e).foldl dedupStep st), List.flatMap_cons,
      List.foldl_append]

theorem processEvents_eq_keepFirst (dec : String → Option (List String))
    (events : List GammaEvent) (category : String) (now : Int)
    (seen : List String) :
    processEvents dec events category now seen =
      keepFirstById seen (admittedStream dec events category now) := by
  unfold processEvents admittedStream keepFirstById
  rw [foldl_dedupStep_flat events (eventCandidates dec category now) ([], seen),
    foldl_dedupStep]
  simp

theorem keepFirstS_nodup (l : List AuroraMarket) :
    ∀ seen : List String,
      (((keepFirstS seen l).1.map AuroraMarket.id).Nodup ∧
       ∀ m ∈ (keepFirstS seen l).1, m.id ∉ seen) := by
  induction l with
  | nil => intro seen; simp [keepFirstS]
  | cons m rest ih =>
    intro seen
    by_cases h : m.id ∈ seen
    · rw [keepFirstS, if_pos h]
      exact ih seen
    · rw [keepFirstS, if_neg h]
      rcases ih (m.id :: seen) with ⟨hnd, hnotin⟩
      constructor
      · rw [List.map_cons, List.nodup_cons]
        refine ⟨?_, hnd⟩
        intro hc
        rcases List.mem_map.mp hc with ⟨x, hx, he⟩
        exact hnotin x hx (he ▸ List.mem_cons_self m.id seen)
      · intro x hx
        rcases List.mem_cons.mp hx with h1 | h2
        · exact h1 ▸ h
        · exact fun c => hnotin x h2 (List.mem_cons_of_mem m.id c)

theorem assocLookup_recordInsert_self {α : Type} (m : List (String × α))
    (key : String) (v : α) :
    assocLookup (recordInsert m key v) key = some v := by
  unfold recordInsert
  by_cases h : m.any (fun p => p.1 = key)
  · rw [if_pos h]
    rcases List.any_eq_true.mp h with ⟨p0, hp0, he0⟩
    clear h
    induction m with
    | nil => simp at hp0
    | cons q rest ih =>
      rcases List.mem_cons.mp hp0 with h1 | h2
      · subst h1
        rw [List.map_cons, if_pos (of_decide_eq_true he0), assocLookup]
        simp
      · by_cases hq : q.1 = key
        · rw [List.map_cons, if_pos hq, assocLookup]
          simp
        · rw [List.map_cons, if_neg hq, assocLookup, if_neg hq]
          exact ih h2
  · rw [if_neg h]
    have : ∀ p ∈ m, p.1 ≠ key := by
      intro p hp hc
      exact h (List.any_eq_true.mpr ⟨p, hp, decide_eq_true hc⟩)
    induction m with
    | nil => simp [assocLookup]
    | cons q rest ih =>
      rw [List.cons_append, assocLookup, if_neg (this q (List.mem_cons_self q rest))]
      exact ih (fun c => h (by
        rcases List.any_eq_true.mp c with ⟨p, hp, hpe⟩
        exact List.any_eq_true.mpr ⟨p, List.mem_cons_of_mem q hp, hpe⟩))
        (fun p hp => this p (List.mem_cons_of_mem q hp))

/-! ## Claim theorems -/

/-- C1 counterexample.  The claim says the price-map size equals
min(len(outcomes), len(prices-that-parsed)).  With two outcomes and an
empty (validly parsed) price array the code keys every outcome — each
missing price defaulting to 0 — so the size is 2 while the claimed
minimum is 0. -/
theorem C1_counterexample :
    (buildOutcomePrices decFix "OUT2" "EMPTY").length = 2 ∧
    (parseJsonArray decFix "OUT2").length = 2 ∧
    (parseJsonArray decFix "EMPTY").length = 0 ∧
    (buildOutcomePrices decFix "OUT2" "EMPTY").length ≠
      min (parseJsonArray decFix "OUT2").length
        (parseJsonArray decFix "EMPTY").length := by
  refine ⟨?_, ?_, ?_, ?_⟩ <;> decide

/-- C1 (amended): for every market whose outcome list and outcome-price
list are valid JSON-encoded arrays, `buildOutcomePrices` produces a price
map whose key list is exactly the deduplicated outcome list — hence a
subset of the outcome list — and whose size is the number of distinct
outcome names (every outcome is keyed; a missing price defaults to 0). -/
theorem C1_outcomePrices_keys (dec : String → Option (List String))
    (oRaw pRaw : String) (outcomes prices : List String)
    (h1 : dec oRaw = some outcomes) (h2 : oRaw ≠ "")
    (h3 : dec pRaw = some prices) (h4 : pRaw ≠ "") :
    (buildOutcomePrices dec oRaw pRaw).map Prod.fst = setDedup outcomes ∧
    (∀ k ∈ (buildOutcomePrices dec oRaw pRaw).map Prod.fst, k ∈ outcomes) ∧
    (buildOutcomePrices dec oRaw pRaw).length = (setDedup outcomes).length := by
  have ho : parseJsonArray dec oRaw = outcomes := by
    unfold parseJsonArray
    rw [if_neg h2, h1]
  have hk := buildOutcomePrices_keys dec oRaw pRaw
  rw [ho] at hk
  refine ⟨hk, ?_, ?_⟩
  · intro k hkmem
    rw [hk] at hkmem
    exact setDedupGo_subset outcomes [] k hkmem
  · have hlen := congrArg List.length hk
    simpa using hlen

/-- Witness for C1: with outcomes `["Yes","No"]` and prices `["1","0"]`
the key list is exactly `["Yes","No"]`, a subset of the outcomes, of size
2. -/
theorem C1_outcomePrices_keys_witness :
    (buildOutcomePrices decFix "OUT2" "PRICES2").map Prod.fst =
      setDedup ["Yes", "No"] ∧
    (∀ k ∈ (buildOutcomePrices decFix "OUT2" "PRICES2").map Prod.fst,
       k ∈ ["Yes", "No"]) ∧
    (buildOutcomePrices decFix "OUT2" "PRICES2").length =
      (setDedup ["Yes", "No"]).length :=
  C1_outcomePrices_keys decFix "OUT2" "PRICES2" ["Yes", "No"] ["1", "0"]
    rfl (by decide) rfl (by decide)

/-- C2 counterexample.  The claim includes Sports among the categories
fetched with related-tag expansion enabled, and gives Economy tag 120:
the Sports branch sends `order: "startDate"` and no `related_tags`, and
the Economy branch sends no tag id at all (`POLYMARKET_TAG_IDS` has no
`Economy` key — only `Finance`), contradicting the claim at both
inputs. -/
theorem C2_counterexample :
    getMarketsPlan (some "Sports") 20 0 none =
      FetchPlan.eventsPlan
        { limit := 80, closed := some false, tag_id := some 100639,
          related_tags := none, order := some "startDate", ascending := none } ∧
    getMarketsPlan (some "Economy") 20 0 none =
      FetchPlan.eventsPlan
        { limit := 40, closed := some false, tag_id := none,
          related_tags := some true, order := none, ascending := none } := by
  constructor <;> rfl

/-- C2 (amended): Politics (2), Crypto (21) and Culture (596) are fetched
through the generic static-category branch with their tag identifier and
related-tag expansion enabled; Sports is fetched through its own branch
with tag 100639, ordered by `startDate`, without related-tag expansion;
Economy and Technology go through the generic branch with related-tag
expansion but no tag identifier, because `POLYMARKET_TAG_IDS` lacks those
keys (a slip — the source comments say 120 and 1401). -/
theorem C2_staticCategoryPlans (limit offset : ℕ) :
    getMarketsPlan (some "Politics") limit offset none =
      FetchPlan.eventsPlan
        { limit := min ((limit + offset) * 2) 100, closed := some false,
          tag_id := some 2, related_tags := some true } ∧
    getMarketsPlan (some "Crypto") limit offset none =
      FetchPlan.eventsPlan
        { limit := min ((limit + offset) * 2) 100, closed := some false,
          tag_id := some 21, related_tags := some true } ∧
    getMarketsPlan (some "Culture") limit offset none =
      FetchPlan.eventsPlan
        { limit := min ((limit + offset) * 2) 100, closed := some false,
          tag_id := some 596, related_tags := some true } ∧
    getMarketsPlan (some "Sports") limit offset none =
      FetchPlan.eventsPlan
        { limit := min (limit + offset + 60) 100, closed := some false,
          tag_id := some 100639, order := some "startDate" } ∧
    getMarketsPlan (some "Economy") limit offset none =
      FetchPlan.eventsPlan
        { limit := min ((limit + offset) * 2) 100, closed := some false,
          tag_id := none, related_tags := some true } ∧
    getMarketsPlan (some "Technology") limit offset none =
      FetchPlan.eventsPlan
        { limit := min ((limit + offset) * 2) 100, closed := some false,
          tag_id := none, related_tags := some true } :=
  ⟨rfl, rfl, rfl, rfl, rfl, rfl⟩

/-- C4: a market whose end time is strictly in the future but less than
one hour away is rejected by `shouldShowMarket` for every category; for a
market whose end time is exactly two hours away the end-date rule does
not fire, so the outcome is exactly that of the remaining (clock-free)
rules — it is not rejected by the one-hour rule alone. -/
theorem C4_minRemainingRule :
    (∀ (m : GammaEventMarket) (cat : String) (now d : Int),
        m.endDate = some d → 0 < d - now → d - now < MIN_REMAINING_MS →
        shouldShowMarket m cat now = false) ∧
    (∀ (m : GammaEventMarket) (cat : String) (now d : Int),
        m.endDate = some d → d - now = 7200000 →
        shouldShowMarket m cat now = shouldShowMarketRest m cat) := by
  constructor
  · intro m cat now d hd h1 h2
    have hrej : endDateRuleRejects m now = true := by
      unfold endDateRuleRejects
      rw [hd]
      exact decide_eq_true ⟨h1, h2⟩
    simp [shouldShowMarket, hrej]
  · intro m cat now d hd h2
    have hrej : endDateRuleRejects m now = false := by
      unfold endDateRuleRejects
      rw [hd]
      show decide (0 < d - now ∧ d - now < MIN_REMAINING_MS) = false
      rw [h2]
      decide
    simp [shouldShowMarket, hrej]

/-- Witness for C4: a concrete market ending 30 minutes after `now = 0`
is rejected; the same market ending 2 hours out is decided purely by the
clock-free rules. -/
theorem C4_minRemainingRule_witness :
    shouldShowMarket (mkFix (some 1800000)) "Politics" 0 = false ∧
    shouldShowMarket (mkFix (some 7200000)) "Politics" 0 =
      shouldShowMarketRest (mkFix (some 7200000)) "Politics" := by
  constructor
  · exact C4_minRemainingRule.1 (mkFix (some 1800000)) "Politics" 0 1800000
      rfl (by decide) (by decide)
  · exact C4_minRemainingRule.2 (mkFix (some 7200000)) "Politics" 0 7200000
      rfl (by decide)

/-- C5 counterexample.  The claim says that when outcome names run out the
first unmatched instrument id is assigned "Yes".  With ids
`["t1","t2"]` and the single outcome `["Maybe"]`, the first unmatched id
`t2` sits at index 1 and receives "No": the fallback is by absolute
position, not by unmatched rank. -/
theorem C5_counterexample :
    buildTokens decFix "TOK2" "OUT1" = [⟨"t1", "Maybe"⟩, ⟨"t2", "No"⟩] := by
  decide

/-- C5 (amended): `buildTokens` zips instrument ids with outcome names
index-wise; when outcome names run out, an unmatched instrument id at
list position 0 is assigned "Yes" and one at any later position "No" (so
the first unmatched id receives "Yes" only when the outcome list is
empty). -/
theorem C5_buildTokens_positional (dec : String → Option (List String))
    (cRaw oRaw : String) (tokenIds outcomes : List String)
    (h1 : dec cRaw = some tokenIds) (h2 : cRaw ≠ "")
    (h3 : dec oRaw = some outcomes) (h4 : oRaw ≠ "") :
    (buildTokens dec cRaw oRaw).length = tokenIds.length ∧
    (∀ i, i < tokenIds.length → i < outcomes.length →
       (buildTokens dec cRaw oRaw).get? i =
         some ⟨tokenIds.getD i "", outcomes.getD i ""⟩) ∧
    (∀ i, i < tokenIds.length → outcomes.length ≤ i →
       (buildTokens dec cRaw oRaw).get? i =
         some ⟨tokenIds.getD i "", if i = 0 then "Yes" else "No"⟩) := by
  have hc : parseJsonArray dec cRaw = tokenIds := by
    unfold parseJsonArray
    rw [if_neg h2, h1]
  have hoo : parseJsonArray dec oRaw = outcomes := by
    unfold parseJsonArray
    rw [if_neg h4, h3]
  have hbt : buildTokens dec cRaw oRaw =
      tokenIds.enum.map (fun it =>
        ⟨it.2, (outcomes.get? it.1).getD (if it.1 = 0 then "Yes" else "No")⟩) := by
    unfold buildTokens
    rw [hc, hoo]
  have henum : ∀ i, i < tokenIds.length →
      tokenIds.enum.get? i = some (i, tokenIds.getD i "") := by
    intro i hi
    rw [List.get?_eq_getElem?, List.getElem?_enum, List.getElem?_eq_getElem hi]
    have : tokenIds.getD i "" = tokenIds[i] := by
      rw [List.getD_eq_getElem?_getD, List.getElem?_eq_getElem hi]
      rfl
    rw [this]
    rfl
  refine ⟨?_, ?_, ?_⟩
  · rw [hbt, List.length_map, List.enum_length]
  · intro i hi hio
    rw [hbt, List.get?_map, henum i hi, Option.map_some']
    have hsome : outcomes.get? i = some (outcomes.getD i "") := by
      rw [List.get?_eq_getElem?, List.getElem?_eq_getElem hio,
        List.getD_eq_getElem?_getD, List.getElem?_eq_getElem hio]
      rfl
    rw [hsome, Option.getD_some]
  · intro i hi hio
    rw [hbt, List.get?_map, henum i hi, Option.map_some']
    have hnone : outcomes.get? i = none := by
      rw [List.get?_eq_getElem?]
      exact List.getElem?_eq_none hio
    rw [hnone, Option.getD_none]

/-- Witness for C5: ids `["t1","t2"]` and outcomes `["Maybe"]` give a
2-element token list whose index 0 pairs with the outcome and whose index
1 (past the outcomes) falls back to "No". -/
theorem C5_buildTokens_positional_witness :
    (buildTokens decFix "TOK2" "OUT1").length = 2 ∧
    (buildTokens decFix "TOK2" "OUT1").get? 0 = some ⟨"t1", "Maybe"⟩ ∧
    (buildTokens decFix "TOK2" "OUT1").get? 1 = some ⟨"t2", "No"⟩ := by
  have h := C5_buildTokens_positional decFix "TOK2" "OUT1" ["t1", "t2"]
    ["Maybe"] rfl (by decide) rfl (by decide)
  refine ⟨h.1, ?_, ?_⟩
  · have h0 := h.2.1 0 (by decide) (by decide)
    simpa using h0
  · have h1 := h.2.2 1 (by decide) (by decide)
    simpa using h1

/-- C6: when the streaming price session fails at the session level (the
`catch` path) or resolves with zero snapshots, the enricher returns the
input batch itself — every catalog-sourced outcome price unchanged — and,
being a total function into market lists, never raises to the caller. -/
theorem C6_enrichDegradesSilently (markets : List AuroraMarket) (e : String) :
    enrichWithRealPrices (.rejected e) markets = markets ∧
    enrichWithRealPrices (.resolved []) markets = markets := by
  constructor
  · unfold enrichWithRealPrices
    split
    · rfl
    · rfl
  · unfold enrichWithRealPrices
    split
    · rfl
    · simp

/-- C3: a request of view "EndingSoon" at time `now` returns only markets
whose end date lies strictly after `now` and at most 48 hours later, and
the list assembled before offset/limit slicing is sorted by end date
ascending. -/
theorem C3_endingSoonWindowAndOrder (dec : String → Option (List String))
    (wsResult : PromiseResult (List (String × TokenPriceSnapshot)))
    (api fallback : List GammaEvent) (now : Int) (limit offset : ℕ) :
    (∀ m ∈ getMarketsEndingSoon dec wsResult api fallback now limit offset,
       ∃ d, m.endDate = some d ∧ now < d ∧ d ≤ now + 48 * 60 * 60 * 1000) ∧
    (∀ m ∈ endingSoonSorted dec api fallback now,
       ∃ d, m.endDate = some d ∧ now < d ∧ d ≤ now + 48 * 60 * 60 * 1000) ∧
    (endingSoonSorted dec api fallback now).Pairwise
      (fun a b => a.endDate.getD 0 ≤ b.endDate.getD 0) := by
  have hfil : ∀ m ∈ endingSoonFiltered dec api fallback now,
      ∃ d, m.endDate = some d ∧ now < d ∧ d ≤ now + 48 * 60 * 60 * 1000 := by
    intro m hm
    rcases List.mem_filter.mp hm with ⟨_, hpred⟩
    cases he : m.endDate with
    | none => rw [he] at hpred; simp at hpred
    | some d =>
      rw [he] at hpred
      exact ⟨d, rfl, of_decide_eq_true hpred⟩
  have hsorted : ∀ m ∈ endingSoonSorted dec api fallback now,
      ∃ d, m.endDate = some d ∧ now < d ∧ d ≤ now + 48 * 60 * 60 * 1000 := by
    intro m hm
    exact hfil m ((mem_jsSortStable endingSoonCmp m _).mp hm)
  refine ⟨?_, hsorted, ?_⟩
  · intro m hm
    rcases mem_enrich_endDate wsResult _ m hm with ⟨m0, hm0, he⟩
    have hm0s : m0 ∈ endingSoonSorted dec api fallback now :=
      List.mem_of_mem_drop (List.mem_of_mem_take hm0)
    rcases hsorted m0 hm0s with ⟨d, hd, hlt, hle⟩
    exact ⟨d, he.trans hd, hlt, hle⟩
  · refine pairwise_jsSortStable (fun m => m.endDate.getD 0) endingSoonCmp _ ?_
    intro a ha b hb
    rcases hfil a ha with ⟨da, hda, _, _⟩
    rcases hfil b hb with ⟨db, hdb, _, _⟩
    show endingSoonCmp a b < 0 ↔ a.endDate.getD 0 < b.endDate.getD 0
    unfold endingSoonCmp
    rw [hda, hdb]
    show da - db < 0 ↔ (some da).getD 0 < (some db).getD 0
    simp only [Option.getD_some]
    omega

/-- C7: within one processed batch, `processEvents` admits at most one
market per canonical identity — its output is exactly the
first-occurrence-wins deduplication of the admitted candidate stream (so
the first occurrence is retained and each later market with the same
identity is silently dropped), its output carries pairwise-distinct ids,
and the canonical identity of a transformed market is the condition id
with the internal id as fallback. -/
theorem C7_dedupFirstOccurrence (dec : String → Option (List String))
    (events : List GammaEvent) (category : String) (now : Int)
    (seen : List String) :
    processEvents dec events category now seen =
      keepFirstById seen (admittedStream dec events category now) ∧
    ((processEvents dec events category now []).map AuroraMarket.id).Nodup ∧
    (∀ (nowT : Int) (mk : GammaEventMarket) (ev : GammaEvent),
        (transformEventMarket dec nowT mk ev).id =
          (if mk.conditionId = "" then mk.id else mk.conditionId)) := by
  refine ⟨processEvents_eq_keepFirst dec events category now seen, ?_, ?_⟩
  · rw [processEvents_eq_keepFirst]
    exact (keepFirstS_nodup (admittedStream dec events category now) []).1
  · intro nowT mk ev
    rfl

/-- C8 counterexample.  The claim says `getOrSet` with an unexpired cached
entry returns the cached value without invoking the producer.  A stored
`null` value refutes it: the entry under "k" is unexpired at `now = 0`,
yet the producer-invoked flag is true. -/
theorem C8_counterexample :
    assocLookup storeNullFix "k" = some ⟨JsData.null, 1000⟩ ∧
    ¬ (0 : Int) > 1000 ∧
    (cacheGetOrSet 0 storeNullFix "k" (JsData.val 42) 60).2.2 = true := by
  refine ⟨rfl, by decide, rfl⟩

/-- C8 (amended): `getOrSet` with an unexpired cached entry holding a
non-null value returns that value without invoking the producer; with an
absent or expired entry it invokes the producer, stores the result under
the given TTL and returns it; an expired entry is deleted lazily by the
lookup and behaves as a miss. -/
theorem C8_getOrSetContract {β : Type} (now : Int)
    (store : List (String × CacheEntry β)) (key : String) (fresh : JsData β)
    (ttl : Int) :
    (∀ (b : β) (exp : Int), assocLookup store key = some ⟨JsData.val b, exp⟩ →
       ¬ now > exp →
       cacheGetOrSet now store key fresh ttl = (JsData.val b, store, false)) ∧
    (assocLookup store key = none →
       cacheGetOrSet now store key fresh ttl =
         (fresh, cacheSet now store key fresh ttl, true)) ∧
    (∀ e : CacheEntry β, assocLookup store key = some e → now > e.expiresAt →
       cacheGet now store key = (JsData.null, storeDelete store key) ∧
       cacheGetOrSet now store key fresh ttl =
         (fresh, cacheSet now (storeDelete store key) key fresh ttl, true)) := by
  refine ⟨?_, ?_, ?_⟩
  · intro b exp hl hexp
    have hget : cacheGet now store key = (JsData.val b, store) := by
      unfold cacheGet
      rw [hl]
      simp [hexp]
    unfold cacheGetOrSet
    rw [hget]
  · intro hl
    have hget : cacheGet now store key = (JsData.null, store) := by
      unfold cacheGet
      rw [hl]
    unfold cacheGetOrSet
    rw [hget]
  · intro e hl hexp
    have hget : cacheGet now store key = (JsData.null, storeDelete store key) := by
      unfold cacheGet
      rw [hl]
      simp [hexp]
    refine ⟨hget, ?_⟩
    unfold cacheGetOrSet
    rw [hget]

/-- Witness for C8: a store with value 7 unexpired at time 0 is returned
without invoking the producer; the empty store and the same store read at
time 2000 (past expiry 1000) both invoke the producer and cache the fresh
value. -/
theorem C8_getOrSetContract_witness :
    cacheGetOrSet 0 storeValFix "k" (JsData.val 9) 60 =
      (JsData.val 7, storeValFix, false) ∧
    cacheGetOrSet 0 ([] : List (String × CacheEntry ℕ)) "k" (JsData.val 9) 60 =
      (JsData.val 9, cacheSet 0 [] "k" (JsData.val 9) 60, true) ∧
    cacheGetOrSet 2000 storeValFix "k" (JsData.val 9) 60 =
      (JsData.val 9, cacheSet 2000 (storeDelete storeValFix "k") "k"
        (JsData.val 9) 60, true) := by
  refine ⟨?_, ?_, ?_⟩
  · exact (C8_getOrSetContract 0 storeValFix "k" (JsData.val 9) 60).1 7 1000
      rfl (by decide)
  · exact (C8_getOrSetContract 0 [] "k" (JsData.val 9) 60).2.1 rfl
  · exact ((C8_getOrSetContract 2000 storeValFix "k" (JsData.val 9) 60).2.2
      ⟨JsData.val 7, 1000⟩ rfl (by decide)).2

/-- C9: when the sync run fails with a pipeline exception (the
success-path SyncLog write is the awaited call in the outer try whose
rejection reaches the catch), `syncMarketsFromPolymarket` issues, as its
last call, a SyncLog create with status "failed" carrying the error
message and the run duration, and re-raises the same error to its
caller. -/
theorem C9_syncFailureLogged (dec : String → Option (List String))
    (env : SyncEnv) (startTime endTime : Int) (msg : String)
    (h : env.successLogResult = .rejected msg) :
    (syncMarketsFromPolymarket dec env startTime endTime).2 =
      PromiseResult.rejected msg ∧
    (syncMarketsFromPolymarket dec env startTime endTime).1.getLast? =
      some (SyncEffect.syncLogCreate
        ⟨"markets", "failed", syncSucceededCount dec env startTime,
          endTime - startTime, some msg⟩) := by
  have hlast : ∀ (l : List SyncEffect) (a b : SyncEffect),
      (l ++ [a, b]).getLast? = some b := by
    intro l a b
    rw [show l ++ [a, b] = (l ++ [a]) ++ [b] by simp, List.getLast?_concat]
  constructor
  · simp [syncMarketsFromPolymarket, h]
  · simp only [syncMarketsFromPolymarket, h]
    exact hlast _ _ _

/-- Witness for C9: the fixture environment whose success-log write
rejects with "db down" yields the failed SyncLog row as the last issued
call and re-raises "db down". -/
theorem C9_syncFailureLogged_witness :
    (syncMarketsFromPolymarket decFix envFix 100 350).2 =
      PromiseResult.rejected "db down" ∧
    (syncMarketsFromPolymarket decFix envFix 100 350).1.getLast? =
      some (SyncEffect.syncLogCreate
        ⟨"markets", "failed", syncSucceededCount decFix envFix 100,
          350 - 100, some "db down"⟩) :=
  C9_syncFailureLogged decFix envFix 100 350 "db down" rfl

/-- C10: the cache does not round-trip a null value: after
`set(key, null, ttl)`, every later `get(key)` returns null — a miss — even
before expiry, so `getOrSet` for a key whose producer returned null (as
`getMarketDetail` does for a not-found market) invokes the producer again
and returns the fresh value on every subsequent call. -/
theorem C10_nullNotCached {β : Type} (store : List (String × CacheEntry β))
    (key : String) (ttl now now2 : Int) (fresh : JsData β) :
    (cacheGet now2 (cacheSet now store key JsData.null ttl) key).1 =
      JsData.null ∧
    (cacheGetOrSet now2 (cacheSet now store key JsData.null ttl) key fresh
      ttl).1 = fresh ∧
    (cacheGetOrSet now2 (cacheSet now store key JsData.null ttl) key fresh
      ttl).2.2 = true := by
  have hl : assocLookup (cacheSet now store key JsData.null ttl) key =
      some ⟨JsData.null, now + ttl * 1000⟩ :=
    assocLookup_recordInsert_self store key ⟨JsData.null, now + ttl * 1000⟩
  rcases hc : cacheGet now2 (cacheSet now store key JsData.null ttl) key
    with ⟨v, st2⟩
  have hv : v = JsData.null := by
    have h1 : (cacheGet now2 (cacheSet now store key JsData.null ttl) key).1 =
        JsData.null := by
      unfold cacheGet
      rw [hl]
      by_cases hx : now2 > now + ttl * 1000
      · simp [hx]
      · simp [hx]
    rw [hc] at h1
    exact h1
  subst hv
  refine ⟨rfl, ?_, ?_⟩
  · unfold cacheGetOrSet
    rw [hc]
  · unfold cacheGetOrSet
    rw [hc]
